import Mathlib

/-!
# Verification of `generate_db_from_dataset/db_generator.py`

Shallow embedding of the CSV-to-SQLite generator. Python strings are
modelled as `List Char`; Python `int` as `Int`/`Nat`; Python `float`
arithmetic on cardinality ratios as exact rationals (the spec's design
notes require exact distinct-count arithmetic for the ratio-based
scoring, and restrict locale-sensitive lowercasing to the ASCII range,
which is what `pyToLower` implements).
-/

namespace DbGen

/-! ## Character helpers (ASCII, per the spec's portability note) -/

/-- `c` is one of `0-9a-z`, i.e. matches the regex class `[0-9a-z]`. -/
def isLowerAlnum (c : Char) : Bool :=
  (48 ≤ c.toNat && c.toNat ≤ 57) || (97 ≤ c.toNat && c.toNat ≤ 122)

/-- `c` is an ASCII digit `0-9` (what `re.match(r'^\d', col)` can see
after the substitution pass has removed every other kind of digit). -/
def isAsciiDigit (c : Char) : Bool := 48 ≤ c.toNat && c.toNat ≤ 57

/-- ASCII lowercasing, modelling `str.lower`. -/
def pyToLower (c : Char) : Char :=
  if 65 ≤ c.toNat && c.toNat ≤ 90 then Char.ofNat (c.toNat + 32) else c

/-- ASCII whitespace, modelling the character class stripped by `str.strip()`. -/
def isPySpace (c : Char) : Bool := c.toNat = 32 || (9 ≤ c.toNat && c.toNat ≤ 13)

/-- Python `s.strip(chars)`: drop the characters satisfying `p` from both ends. -/
def pyStrip (p : Char → Bool) (s : List Char) : List Char :=
  ((s.dropWhile p).reverse.dropWhile p).reverse

/-! ## `_clean_column_name` -/

/-- Worker for `re.sub(r'[^0-9a-z]+', '_', col)`: replace every maximal
run of non-`[0-9a-z]` characters by a single `'_'`.  The flag records
whether the previous character already emitted an underscore, i.e.
whether we are inside such a run. -/
def subNonAlnumAux : Bool → List Char → List Char
  | _, [] => []
  | inRun, c :: rest =>
    if isLowerAlnum c then c :: subNonAlnumAux false rest
    else if inRun then subNonAlnumAux true rest
    else '_' :: subNonAlnumAux true rest

/-- `re.sub(r'[^0-9a-z]+', '_', col)`. -/
def subNonAlnum (s : List Char) : List Char := subNonAlnumAux false s

/-- `re.match(r'^\d', col)` succeeds. -/
def startsWithDigit : List Char → Bool
  | [] => false
  | c :: _ => isAsciiDigit c

/-- `if re.match(r'^\d', col): col = 'c_' + col`. -/
def cleanDigit (s : List Char) : List Char :=
  if startsWithDigit s then 'c' :: '_' :: s else s

/-- `return col or 'col'`. -/
def cleanFallback (s : List Char) : List Char :=
  if s = [] then ('c' :: 'o' :: 'l' :: []) else s

/-- `_clean_column_name`: strip, lower, replace non-alnum runs with `'_'`,
strip underscores, prefix `c_` on a leading digit, fall back to `"col"`. -/
def _clean_column_name (col : List Char) : List Char :=
  cleanFallback (cleanDigit
    (pyStrip (fun c => c == '_') (subNonAlnum ((pyStrip isPySpace col).map pyToLower))))

/-! ## `_make_unique_columns` -/

/-- Lookup in the `seen` dict (association list keyed by column name). -/
def lookupCount : List (List Char × Nat) → List Char → Option Nat
  | [], _ => none
  | (k, v) :: rest, key => if k = key then some v else lookupCount rest key

/-- `seen[key] = v` on the dict. -/
def setCount : List (List Char × Nat) → List Char → Nat → List (List Char × Nat)
  | [], key, v => [(key, v)]
  | (k, w) :: rest, key, v =>
    if k = key then (k, v) :: rest else (k, w) :: setCount rest key v

/-- The loop of `_make_unique_columns`: on a repeated base name bump its
counter and append `_<counter>`; a fresh name is recorded with counter 0
and kept as is.  Note the suffixed name itself is never added to `seen`. -/
def makeUniqueAux (seen : List (List Char × Nat)) : List (List Char) → List (List Char)
  | [] => []
  | c :: rest =>
    match lookupCount seen c with
    | some n =>
        (c ++ '_' :: (Nat.toDigits 10 (n + 1))) :: makeUniqueAux (setCount seen c (n + 1)) rest
    | none => c :: makeUniqueAux (setCount seen c 0) rest

/-- `_make_unique_columns`. -/
def _make_unique_columns (cols : List (List Char)) : List (List Char) :=
  makeUniqueAux [] cols

/-- Cleaning then deduplication, as `create_db_from_csv` applies them to
the raw CSV headers. -/
def cleanedUniqueHeaders (headers : List (List Char)) : List (List Char) :=
  _make_unique_columns (headers.map _clean_column_name)

/-! ## `_suggest_index_columns` -/

/-- One column of the in-memory DataFrame: its name, its cells (`none`
models a missing value / NaN, values are abstracted to naturals), and a
flag modelling series on which `ser.nunique` raises (e.g. unhashable
cells), which the source catches with `except`. -/
structure Column where
  name : List Char
  vals : List (Option Nat)
  cardFail : Bool
deriving DecidableEq, Repr

/-- `ser.nunique(dropna=True)`: number of distinct non-null values. -/
def nunique (c : Column) : Nat := (c.vals.filterMap id).dedup.length

/-- `len(ser)`: the number of rows. -/
def colLen (c : Column) : Nat := c.vals.length

/-- `pat` is a prefix of `s`. -/
def startsWithList : List Char → List Char → Bool
  | [], _ => true
  | _ :: _, [] => false
  | a :: pat, b :: s => a == b && startsWithList pat s

/-- Python `pat in s`: substring containment. -/
def containsSub (pat : List Char) : List Char → Bool
  | [] => pat.isEmpty
  | b :: rest => startsWithList pat (b :: rest) || containsSub pat rest

/-- The keyword tuple `('date', 'timestamp', 'time')`. -/
def dateKeywords : List (List Char) :=
  [("date").toList, ("timestamp").toList, ("time").toList]

/-- The keyword tuple `('region', 'state', 'city', 'category', 'segment')`. -/
def regionKeywords : List (List Char) :=
  [("region").toList, ("state").toList, ("city").toList,
   ("category").toList, ("segment").toList]

/-- `ratio = nunique / max(1, len(ser))`, or the worst case `1.0` when
`ser.nunique` raised (the `except` branch; its `nunique = 999999` is
never read afterwards). -/
def ratioOf (c : Column) : ℚ :=
  if c.cardFail then 1
  else (nunique c : ℚ) / ((Nat.max 1 (colLen c)) : ℚ)

/-- The per-column body of the loop in `_suggest_index_columns`: the
`(score, ratio)` pair the heuristic computes for one column
(`lname = col.lower()` inlined). -/
def scoreColumn (max_unique_ratio : ℚ) (c : Column) : Nat × ℚ :=
  ((if containsSub (("id").toList) (c.name.map pyToLower)
        && (c.name.map pyToLower).length ≤ 10 then 4 else 0)
    + (if dateKeywords.any (fun k => containsSub k (c.name.map pyToLower)) then 3 else 0)
    + (if regionKeywords.any (fun k => containsSub k (c.name.map pyToLower)) then 2 else 0)
    + (if ratioOf c < max_unique_ratio then 2
       else if ratioOf c < max_unique_ratio * 2 then 1 else 0),
   ratioOf c)

/-- The `candidates` list built by the loop: `(score, ratio, col)` for
each column of positive score, in column order. -/
def indexCandidates (max_unique_ratio : ℚ) (cols : List Column) :
    List (Nat × ℚ × List Char) :=
  cols.filterMap (fun c =>
    let sr := scoreColumn max_unique_ratio c
    if 0 < sr.1 then some (sr.1, sr.2, c.name) else none)

/-- `candidates.sort(key=lambda x: (-x[0], x[1]))` orders candidates by
lexicographic `≤` on the key `(-score, ratio)`, i.e. score descending
then ratio ascending.  Python's `list.sort` is a stable sort; it is
modelled below by `List.insertionSort`, whose stability is proved by
`List.sublist_insertionSort` (stable sorts of a list under a total
preorder agree, so this models CPython's timsort faithfully). -/
def candR (a b : Nat × ℚ × List Char) : Prop :=
  b.1 < a.1 ∨ (a.1 = b.1 ∧ a.2.1 ≤ b.2.1)

instance : DecidableRel candR :=
  fun _ _ => inferInstanceAs (Decidable (_ ∨ _))

instance : IsTotal (Nat × ℚ × List Char) candR := by
  constructor
  intro a b
  rcases Nat.lt_trichotomy a.1 b.1 with h | h | h
  · exact Or.inr (Or.inl h)
  · rcases le_total a.2.1 b.2.1 with hr | hr
    · exact Or.inl (Or.inr ⟨h, hr⟩)
    · exact Or.inr (Or.inr ⟨h.symm, hr⟩)
  · exact Or.inl (Or.inl h)

instance : IsTrans (Nat × ℚ × List Char) candR := by
  constructor
  intro a b c hab hbc
  rcases hab with h1 | ⟨h1, r1⟩ <;> rcases hbc with h2 | ⟨h2, r2⟩
  · exact Or.inl (h2.trans h1)
  · exact Or.inl (h2 ▸ h1)
  · exact Or.inl (h1 ▸ h2)
  · exact Or.inr ⟨h1.trans h2, r1.trans r2⟩

/-- Python list slicing `l[:k]` for an arbitrary `int` bound `k`
(a negative `k` counts from the end of the list). -/
def pyTake {α : Type} (k : Int) (l : List α) : List α :=
  if 0 ≤ k then l.take k.toNat else l.take ((l.length : Int) + k).toNat

/-- Default of the `max_unique_ratio: float = 0.05` parameter. -/
def defaultMaxUniqueRatio : ℚ := 1 / 20

/-- Default of the `max_indexes: int = 5` parameter. -/
def defaultMaxIndexes : Int := 5

/-- `_suggest_index_columns`. -/
def _suggest_index_columns (cols : List Column) (max_unique_ratio : ℚ)
    (max_indexes : Int) : List (List Char) :=
  (pyTake max_indexes ((indexCandidates max_unique_ratio cols).insertionSort candR)).map
    (fun t => t.2.2)

/-! ## Spec-side definitions for the index advisor (for refinement claims)

These follow the wording of the spec (section 4.2 and the glossary),
to be compared with the code-derived `scoreColumn`. -/

/-- Modelled from the spec's words: cardinality ratio = distinct value
count divided by row count, `1` when cardinality cannot be computed. -/
def specCardinalityRatio (c : Column) : ℚ :=
  if c.cardFail then 1 else (nunique c : ℚ) / ((colLen c) : ℚ)

/-- Modelled from the spec's words: +4 if the lowercase name contains
"id" and is short (≤10 chars); +3 if it matches date/time-like name
patterns; +2 if it matches region/category-like name patterns; +2 if
ratio < threshold, else +1 if ratio < 2×threshold. -/
def specScore (threshold : ℚ) (c : Column) : Nat :=
  (if containsSub (("id").toList) (c.name.map pyToLower)
      && (c.name.map pyToLower).length ≤ 10 then 4 else 0)
  + (if dateKeywords.any (fun k => containsSub k (c.name.map pyToLower)) then 3 else 0)
  + (if regionKeywords.any (fun k => containsSub k (c.name.map pyToLower)) then 2 else 0)
  + (if specCardinalityRatio c < threshold then 2
     else if specCardinalityRatio c < 2 * threshold then 1 else 0)

/-! ## `create_db_from_csv` and `process_config_file`

The filesystem and the destination SQLite files are explicit state
(`World`); pandas and the sqlite driver are external collaborators
supplied as oracle functions (`Pandas`); raised exceptions are `Except`
errors. -/

/-- Exceptions. `externalError` stands for an arbitrary exception raised
inside a collaborator (pandas, sqlite). -/
inductive PyErr
  | fileNotFound (path : List Char)
  | readCsvFailed (path : List Char)
  | externalError (code : Nat)
deriving DecidableEq, Repr

/-- Content of one SQLite database file: its tables (name to stored
columns) and the names of the indexes created in it. -/
structure DB where
  tables : List (List Char × List Column)
  indexes : List (List Char)
deriving Repr

/-- Association-list lookup (dictionary read). -/
def alookup {β : Type} : List (List Char × β) → List Char → Option β
  | [], _ => none
  | (k, v) :: rest, key => if k = key then some v else alookup rest key

/-- Association-list update (dictionary write). -/
def aset {β : Type} : List (List Char × β) → List Char → β → List (List Char × β)
  | [], key, v => [(key, v)]
  | (k, w) :: rest, key, v =>
    if k = key then (k, v) :: rest else (k, w) :: aset rest key v

/-- The world outside the program: which paths exist on the filesystem
(`os.path.exists`) and the SQLite database files by path. -/
structure World where
  fsExists : List Char → Bool
  dbs : List (List Char × DB)

/-- External collaborators: `pd.read_csv` for one attempt (`none` models
the final `engine='python'` attempt, `some enc` an attempt with that
encoding), `pd.to_datetime` on a column's cells, and `DataFrame.to_sql`
(given the database content, the table name, the frame and the
`if_exists` string). -/
structure Pandas where
  readCsv : List Char → Option (List Char) → Except PyErr (List Column)
  toDatetime : List (Option Nat) → List (Option Nat)
  toSql : DB → List Char → List Column → List Char → Except PyErr DB

/-- `os.path.dirname`: everything before the last `/`, empty when there
is no directory part. -/
def dirname (p : List Char) : List Char :=
  ((p.reverse.dropWhile (fun c => c != '/')).drop 1).reverse

/-- The final path component. -/
def basename (p : List Char) : List Char :=
  (p.reverse.takeWhile (fun c => c != '/')).reverse

/-- `Path(p).stem`: the final component without its last suffix (a
suffix needs an inner dot, per CPython's `0 < i < len(name) - 1`). -/
def pathStem (p : List Char) : List Char :=
  let base := basename p
  let pre := (base.reverse.dropWhile (fun c => c != '.')).drop 1
  if 0 < pre.length ∧ pre.length < base.length - 1 then pre.reverse else base

/-- `Path(p).with_suffix('.db')`: replace (or append) the suffix of the
final component. -/
def withSuffixDb (p : List Char) : List Char :=
  p.take (p.length - (basename p).length) ++ pathStem p ++ ('.' :: 'd' :: 'b' :: [])

/-- `c` matches `[0-9a-zA-Z]`. -/
def isAlnumAZ (c : Char) : Bool :=
  isLowerAlnum c || (65 ≤ c.toNat && c.toNat ≤ 90)

/-- Worker for `re.sub(r'[^0-9a-zA-Z]+', '_', stem)`: like
`subNonAlnumAux` but for the case-insensitive character class. -/
def subNonAlnumAZAux : Bool → List Char → List Char
  | _, [] => []
  | inRun, c :: rest =>
    if isAlnumAZ c then c :: subNonAlnumAZAux false rest
    else if inRun then subNonAlnumAZAux true rest
    else '_' :: subNonAlnumAZAux true rest

/-- Default table name: `re.sub(r'[^0-9a-zA-Z]+', '_', stem).lower().strip('_')`,
falling back to `table_data`. -/
def deriveTableName (csv_path : List Char) : List Char :=
  let t := pyStrip (fun c => c == '_')
    ((subNonAlnumAZAux false (pathStem csv_path)).map pyToLower)
  if t = [] then ("table_data").toList else t

/-- Default of the `encodings` parameter. -/
def defaultEncodings : List (List Char) :=
  [("utf-8").toList, ("latin1").toList, ("iso-8859-1").toList, ("cp1252").toList]

/-- The encoding loop: try `pd.read_csv` with each encoding, then the
final `engine='python'` attempt; if that fails too, raise the summary
`Exception`. -/
def readWithEncodings (pd : Pandas) (csv_path : List Char) :
    List (List Char) → Except PyErr (List Column)
  | [] =>
    match pd.readCsv csv_path none with
    | .ok df => .ok df
    | .error _ => .error (.readCsvFailed csv_path)
  | enc :: rest =>
    match pd.readCsv csv_path (some enc) with
    | .ok df => .ok df
    | .error _ => readWithEncodings pd csv_path rest

/-- `re.search(r'date|time|timestamp', col, flags=re.I)` succeeds. -/
def dateLikeName (col : List Char) : Bool :=
  let l := col.map pyToLower
  containsSub (("date").toList) l || containsSub (("time").toList) l ||
    containsSub (("timestamp").toList) l

/-- The datetime pass: best-effort coercion of date-like-named columns
(`errors='ignore'` plus `try/except pass`: never fatal). -/
def coerceDates (pd : Pandas) (cols : List Column) : List Column :=
  cols.map (fun c =>
    if dateLikeName c.name then { c with vals := pd.toDatetime c.vals } else c)

/-- The index-creation loop: `CREATE INDEX IF NOT EXISTS
"idx_<table>_<col>"` for each requested column present in the schema
(an absent column is silently skipped; `IF NOT EXISTS` makes a repeated
index name a no-op, and sqlite errors are swallowed by the
`try/except pass`, so index creation never fails in the model). -/
def createIndexes (table_name : List Char) (dfCols : List (List Char))
    (idxCols : List (List Char)) (db : DB) : DB :=
  idxCols.foldl (fun db col =>
    if dfCols.contains col then
      let idxName := ("idx_").toList ++ table_name ++ ('_' :: col)
      if db.indexes.contains idxName then db
      else { db with indexes := db.indexes ++ [idxName] }
    else db) db

/-- `create_db_from_csv`: returns the world after the call together with
`()` or the raised exception. -/
def create_db_from_csv (pd : Pandas) (w : World) (csv_path : List Char)
    (db_path : Option (List Char)) (table_name : Option (List Char))
    (index_columns : Option (List (List Char)))
    (encodings : Option (List (List Char))) (if_exists : List Char) :
    World × Except PyErr Unit :=
  let encs := match encodings with
    | some e => e
    | none => defaultEncodings
  if w.fsExists csv_path = false then (w, .error (.fileNotFound csv_path))
  else
    let dbPath := match db_path with
      | some p => p
      | none => withSuffixDb csv_path
    let tableName := match table_name with
      | some t => t
      | none => deriveTableName csv_path
    match readWithEncodings pd csv_path encs with
    | .error e => (w, .error e)
    | .ok df0 =>
      let cleaned := _make_unique_columns ((df0.map (fun c => c.name)).map _clean_column_name)
      let df1 := (df0.zip cleaned).map (fun p => { p.1 with name := p.2 })
      let df := coerceDates pd df1
      -- `sqlite3.connect` creates the database file when it is absent
      let db0 := match alookup w.dbs dbPath with
        | some db => db
        | none => ⟨[], []⟩
      match pd.toSql db0 tableName df if_exists with
      | .error e => ({ w with dbs := aset w.dbs dbPath db0 }, .error e)
      | .ok db1 =>
        let idxCols := match index_columns with
          | some l => l
          | none => _suggest_index_columns df defaultMaxUniqueRatio defaultMaxIndexes
        let db2 := createIndexes tableName (df.map (fun c => c.name)) idxCols db1
        ({ w with dbs := aset w.dbs dbPath db2 }, .ok ())

/-- One entry of the YAML `databases:` list; `none` models an absent key
(`dict.get` returns `None`). -/
structure DbConfig where
  csv : Option (List Char)
  db : Option (List Char)
  table : Option (List Char)
  index_columns : Option (List (List Char))

/-- `os.makedirs(dir)`: afterwards the directory exists. -/
def makedirs (w : World) (dir : List Char) : World :=
  { w with fsExists := fun p => if p = dir then true else w.fsExists p }

/-- The body of the loop in `process_config_file` for one entry,
including its `try/except`: `True` iff the entry succeeded.  A missing
or empty (falsy) `csv` field raises the `ValueError` before anything
else happens; a truthy `db` path gets its directory created first. -/
def processEntry (pd : Pandas) (w : World) (e : DbConfig) : World × Bool :=
  match e.csv with
  | none => (w, false)
  | some csvPath =>
    if csvPath = [] then (w, false)
    else
      let w1 := match e.db with
        | some dbp =>
          if dbp ≠ [] then
            let dir := dirname dbp
            if dir ≠ [] ∧ w.fsExists dir = false then makedirs w dir else w
          else w
        | none => w
      match create_db_from_csv pd w1 csvPath e.db e.table e.index_columns none
          (("replace").toList) with
      | (w2, .ok _) => (w2, true)
      | (w2, .error _) => (w2, false)

/-- The loop of `process_config_file` over the `databases:` list,
accumulating `(success_count, error_count)`. -/
def processLoop (pd : Pandas) : World → List DbConfig → World × Nat × Nat
  | w, [] => (w, 0, 0)
  | w, e :: rest =>
    let r := processEntry pd w e
    let rec' := processLoop pd r.1 rest
    (rec'.1, (if r.2 then 1 else 0) + rec'.2.1, (if r.2 then 0 else 1) + rec'.2.2)

/-- `process_config_file`, given the already-parsed `databases:` list
(the YAML loading and the two shape checks on the config precede the
loop; a config that fails them never reaches it). -/
def process_config_file (pd : Pandas) (w : World) (databases : List DbConfig) :
    World × Nat × Nat :=
  processLoop pd w databases

/-! ## Concrete fixtures used by witnesses and counterexamples -/

/-- Two tied index candidates: both names contain `state` (+2), both
ratios are the worst-case `1` (their `nunique` raises). -/
def tieCols : List Column :=
  [⟨("state_a").toList, [], true⟩, ⟨("state_b").toList, [], true⟩]

/-- The candidate tuple the advisor builds for the first tied column. -/
def tieA : Nat × ℚ × List Char := (4, 1, ("state_a").toList)

/-- The candidate tuple the advisor builds for the second tied column. -/
def tieB : Nat × ℚ × List Char := (4, 1, ("state_b").toList)

/-- A world where every path exists and no database has content. -/
def wAll : World := ⟨fun _ => true, []⟩

/-- A world where no path exists. -/
def wEmpty : World := ⟨fun _ => false, []⟩

/-- A pandas oracle whose reads succeed with an empty frame and whose
`to_sql` stores the frame. -/
def pdOk : Pandas :=
  ⟨fun _ _ => .ok [], id,
   fun db t cols _ => .ok { db with tables := aset db.tables t cols }⟩

/-- A pandas oracle that always fails. -/
def pdNull : Pandas :=
  ⟨fun _ _ => .error (.externalError 0), id, fun _ _ _ _ => .error (.externalError 0)⟩

/-- A config entry with the required `csv` field missing. -/
def cfgMissing : DbConfig := ⟨none, none, none, none⟩

/-- A well-formed config entry. -/
def cfgGood : DbConfig := ⟨some (("data.csv").toList), none, none, none⟩

example : _clean_column_name (("Order ID").toList) = (("order_id").toList) := by decide
example : _clean_column_name (("2020").toList) = (("c_2020").toList) := by decide
example : _clean_column_name ([]) = (("col").toList) := by decide
example : _clean_column_name (("  --a__b (x)%  ").toList) = (("a_b_x").toList) := by decide
example : _make_unique_columns ([("a").toList, ("a").toList, ("a").toList]) =
    [("a").toList, ("a_1").toList, ("a_2").toList] := by decide
example : cleanedUniqueHeaders ([("a").toList, ("a").toList, ("a 1").toList]) =
    [("a").toList, ("a_1").toList, ("a_1").toList] := by decide

example : pyTake (-1) [1, 2, 3] = [1, 2] := by decide
example : pyTake 2 [1, 2, 3] = [1, 2] := by decide
example : containsSub (("id").toList) (("order_id").toList) = true := by decide
example :
    _suggest_index_columns
      [⟨("value").toList, [], true⟩, ⟨("region").toList, [], true⟩] 2 defaultMaxIndexes
    = [("region").toList, ("value").toList] := by decide
example :
    scoreColumn 2 ⟨("order_id").toList, [], true⟩ = (6, 1) := by decide

/-! ## Invariants of the name sanitizer -/

/-- A character the sanitizer may emit: `[0-9a-z_]`. -/
def isCoreChar (c : Char) : Bool := isLowerAlnum c || c == '_'

/-- No two adjacent underscores. -/
def NoRun (l : List Char) : Prop :=
  l.Chain' (fun a b => ¬(a = '_' ∧ b = '_'))

/-- The head, if any, does not satisfy `p`. -/
def HeadOk (p : Char → Bool) (l : List Char) : Prop :=
  ∀ y ∈ l.head?, p y = false

theorem isLowerAlnum_ne_und {c : Char} (h : isLowerAlnum c = true) : c ≠ '_' := by
  intro he
  subst he
  exact absurd h (by decide)

theorem isAsciiDigit_ne_und {c : Char} (h : isAsciiDigit c = true) : c ≠ '_' := by
  intro he
  subst he
  exact absurd h (by decide)

theorem coreChar_pyToLower {c : Char} (h : isCoreChar c = true) : pyToLower c = c := by
  simp only [isCoreChar, isLowerAlnum, Bool.or_eq_true, Bool.and_eq_true,
    decide_eq_true_eq, beq_iff_eq] at h
  have h' : ¬(65 ≤ c.toNat ∧ c.toNat ≤ 90) := by
    rcases h with (h | h) | h
    · omega
    · omega
    · subst h
      decide
  simp only [pyToLower, Bool.and_eq_true, decide_eq_true_eq]
  rw [if_neg (by simpa using h')]

theorem coreChar_not_space {c : Char} (h : isCoreChar c = true) : isPySpace c = false := by
  simp only [isCoreChar, isLowerAlnum, Bool.or_eq_true, Bool.and_eq_true,
    decide_eq_true_eq, beq_iff_eq] at h
  simp only [isPySpace, Bool.or_eq_false_iff, Bool.and_eq_false_iff,
    decide_eq_false_iff_not]
  rcases h with (h | h) | h
  · omega
  · omega
  · subst h
    decide

theorem headOk_dropWhile (p : Char → Bool) : ∀ l : List Char, HeadOk p (l.dropWhile p)
  | [] => by simp [HeadOk]
  | c :: rest => by
    by_cases h : p c
    · simpa [List.dropWhile_cons, h] using headOk_dropWhile p rest
    · simp [List.dropWhile_cons, h, HeadOk]

theorem dropWhile_eq_self_of_headOk {p : Char → Bool} {l : List Char}
    (h : HeadOk p l) : l.dropWhile p = l := by
  cases l with
  | nil => rfl
  | cons c t =>
    have hc : p c = false := h c (by simp)
    simp [List.dropWhile_cons, hc]

theorem dropWhile_eq_self_of_mem {p : Char → Bool} {l : List Char}
    (h : ∀ c ∈ l, p c = false) : l.dropWhile p = l := by
  apply dropWhile_eq_self_of_headOk
  intro y hy
  cases l with
  | nil => simp at hy
  | cons c t =>
    simp only [List.head?_cons, Option.mem_def, Option.some.injEq] at hy
    exact hy ▸ h c (by simp)

theorem HeadOk.of_prefix {p : Char → Bool} {l₁ l₂ : List Char}
    (hpre : l₁ <+: l₂) (h : HeadOk p l₂) : HeadOk p l₁ := by
  cases l₁ with
  | nil => simp [HeadOk]
  | cons c t =>
    obtain ⟨r, hr⟩ := hpre
    intro y hy
    simp only [List.head?_cons, Option.mem_def, Option.some.injEq] at hy
    subst hy
    exact h c (by rw [← hr]; simp)

theorem headOk_append {p : Char → Bool} {l r : List Char}
    (h : HeadOk p l) (hne : l ≠ []) : HeadOk p (l ++ r) := by
  cases l with
  | nil => exact absurd rfl hne
  | cons c t =>
    intro y hy
    simp only [List.cons_append, List.head?_cons, Option.mem_def, Option.some.injEq] at hy
    exact hy ▸ h c (by simp)

theorem NoRun.reverse {l : List Char} (h : NoRun l) : NoRun l.reverse := by
  unfold NoRun at *
  rw [List.chain'_reverse]
  exact h.imp (fun a b hab hba => hab ⟨hba.2, hba.1⟩)

theorem NoRun.of_suffix {l₁ l₂ : List Char} (hs : l₁ <:+ l₂) (h : NoRun l₂) : NoRun l₁ :=
  List.Chain'.suffix h hs

theorem pyStrip_core {p : Char → Bool} {l : List Char}
    (h : ∀ c ∈ l, isCoreChar c = true) : ∀ c ∈ pyStrip p l, isCoreChar c = true := by
  intro c hc
  unfold pyStrip at hc
  rw [List.mem_reverse] at hc
  have hc2 := List.dropWhile_subset p hc
  rw [List.mem_reverse] at hc2
  exact h c (List.dropWhile_subset p hc2)

theorem pyStrip_noRun {p : Char → Bool} {l : List Char} (h : NoRun l) :
    NoRun (pyStrip p l) := by
  unfold pyStrip
  exact (((h.of_suffix (List.dropWhile_suffix p)).reverse.of_suffix
    (List.dropWhile_suffix p)).reverse)

theorem pyStrip_headOk (p : Char → Bool) (l : List Char) : HeadOk p (pyStrip p l) := by
  unfold pyStrip
  have hsuf : ((l.dropWhile p).reverse.dropWhile p) <:+ (l.dropWhile p).reverse :=
    List.dropWhile_suffix p
  have hpre : ((l.dropWhile p).reverse.dropWhile p).reverse <+: (l.dropWhile p) := by
    have h2 := List.reverse_prefix.mpr hsuf
    simpa using h2
  exact HeadOk.of_prefix hpre (headOk_dropWhile p l)

theorem pyStrip_lastOk (p : Char → Bool) (l : List Char) :
    HeadOk p (pyStrip p l).reverse := by
  unfold pyStrip
  rw [List.reverse_reverse]
  exact headOk_dropWhile p _

theorem pyStrip_eq_self_of_ends {p : Char → Bool} {l : List Char}
    (h1 : HeadOk p l) (h2 : HeadOk p l.reverse) : pyStrip p l = l := by
  unfold pyStrip
  rw [dropWhile_eq_self_of_headOk h1, dropWhile_eq_self_of_headOk h2,
    List.reverse_reverse]

theorem pyStrip_eq_self_of_mem {p : Char → Bool} {l : List Char}
    (h : ∀ c ∈ l, p c = false) : pyStrip p l = l := by
  unfold pyStrip
  rw [dropWhile_eq_self_of_mem h, dropWhile_eq_self_of_mem (by simpa using h),
    List.reverse_reverse]

theorem map_id_of_mem {f : Char → Char} {l : List Char}
    (h : ∀ c ∈ l, f c = c) : l.map f = l := by
  induction l with
  | nil => rfl
  | cons c t ih =>
    simp only [List.map_cons, h c (by simp)]
    rw [ih (fun d hd => h d (by simp [hd]))]

theorem subAux_mem_core :
    ∀ (l : List Char) (b : Bool), ∀ c ∈ subNonAlnumAux b l, isCoreChar c = true := by
  intro l
  induction l with
  | nil => intro b c hc; simp [subNonAlnumAux] at hc
  | cons a t ih =>
    intro b c hc
    by_cases ha : isLowerAlnum a
    · rw [subNonAlnumAux, if_pos ha] at hc
      rcases List.mem_cons.mp hc with h | h
      · subst h
        simp [isCoreChar, ha]
      · exact ih false c h
    · rw [subNonAlnumAux, if_neg ha] at hc
      by_cases hb : b
      · rw [if_pos hb] at hc
        exact ih true c hc
      · rw [if_neg hb] at hc
        rcases List.mem_cons.mp hc with h | h
        · subst h
          decide
        · exact ih true c h

theorem subAux_noRun :
    ∀ (l : List Char) (b : Bool), NoRun (subNonAlnumAux b l) ∧
      (b = true → HeadOk (fun c => c == '_') (subNonAlnumAux b l)) := by
  intro l
  induction l with
  | nil =>
    intro b
    constructor
    · simp [subNonAlnumAux, NoRun]
    · intro _; simp [subNonAlnumAux, HeadOk]
  | cons a t ih =>
    intro b
    by_cases ha : isLowerAlnum a
    · rw [subNonAlnumAux, if_pos ha]
      have hne := isLowerAlnum_ne_und ha
      constructor
      · rw [NoRun, List.chain'_cons']
        exact ⟨fun y _ hand => hne hand.1, (ih false).1⟩
      · intro _ y hy
        simp only [List.head?_cons, Option.mem_def, Option.some.injEq] at hy
        subst hy
        simpa using hne
    · rw [subNonAlnumAux, if_neg ha]
      by_cases hb : b
      · rw [if_pos hb]
        subst hb
        exact ih true
      · rw [if_neg hb]
        have hto := (ih true).2 rfl
        constructor
        · rw [NoRun, List.chain'_cons']
          refine ⟨fun y hy hand => ?_, (ih true).1⟩
          have := hto y hy
          simp only [beq_eq_false_iff_ne, ne_eq] at this
          exact this hand.2
        · intro hbt
          exact absurd hbt hb

theorem subAux_fixpoint :
    ∀ l : List Char, (∀ c ∈ l, isCoreChar c = true) → NoRun l →
      subNonAlnumAux false l = l ∧
        (HeadOk (fun c => c == '_') l → subNonAlnumAux true l = l) := by
  intro l
  induction l with
  | nil => exact fun _ _ => ⟨rfl, fun _ => rfl⟩
  | cons a t ih =>
    intro hcore hnr
    have htcore : ∀ c ∈ t, isCoreChar c = true := fun c hc => hcore c (by simp [hc])
    have htnr : NoRun t := List.Chain'.tail hnr
    have hit := ih htcore htnr
    have ha := hcore a (by simp)
    rw [isCoreChar, Bool.or_eq_true, beq_iff_eq] at ha
    rcases ha with ha | ha
    · have hfix : subNonAlnumAux false t = t := hit.1
      constructor
      · rw [subNonAlnumAux, if_pos ha, hfix]
      · intro _
        rw [subNonAlnumAux, if_pos ha, hfix]
    · subst ha
      have hhead : HeadOk (fun c => c == '_') t := by
        intro y hy
        have := (List.chain'_cons'.mp hnr).1 y hy
        simp only [beq_eq_false_iff_ne, ne_eq]
        intro hy2
        exact this ⟨rfl, hy2⟩
      have hfix : subNonAlnumAux true t = t := hit.2 hhead
      constructor
      · rw [subNonAlnumAux, if_neg (by decide), if_neg (by decide), hfix]
      · intro hok
        have := hok '_' (by simp)
        simp at this

/-- Every output of `_clean_column_name` is nonempty, made of
`[0-9a-z_]`, has no doubled underscore, neither starts nor ends with an
underscore, and does not start with a digit. -/
theorem clean_invariants (col : List Char) :
    (∀ c ∈ _clean_column_name col, isCoreChar c = true) ∧
      NoRun (_clean_column_name col) ∧
      HeadOk (fun c => c == '_') (_clean_column_name col) ∧
      HeadOk (fun c => c == '_') (_clean_column_name col).reverse ∧
      startsWithDigit (_clean_column_name col) = false ∧
      _clean_column_name col ≠ [] := by
  unfold _clean_column_name
  set s3 := pyStrip (fun c => c == '_')
    (subNonAlnum ((pyStrip isPySpace col).map pyToLower)) with hs3
  have hcore3 : ∀ c ∈ s3, isCoreChar c = true :=
    pyStrip_core (subAux_mem_core _ false)
  have hnr3 : NoRun s3 := pyStrip_noRun (subAux_noRun _ false).1
  have hh3 : HeadOk (fun c => c == '_') s3 := pyStrip_headOk _ _
  have hl3 : HeadOk (fun c => c == '_') s3.reverse := pyStrip_lastOk _ _
  by_cases hd : startsWithDigit s3
  · rw [cleanDigit, if_pos hd]
    obtain ⟨d, t, hdt⟩ : ∃ d t, s3 = d :: t := by
      cases hs : s3 with
      | nil => rw [hs] at hd; exact absurd hd (by decide)
      | cons d t => exact ⟨d, t, rfl⟩
    have hdig : isAsciiDigit d = true := by
      rw [hdt] at hd
      exact hd
    rw [cleanFallback, if_neg (by simp)]
    refine ⟨?_, ?_, ?_, ?_, ?_, by simp⟩
    · intro c hc
      rcases List.mem_cons.mp hc with h | h
      · subst h; decide
      rcases List.mem_cons.mp h with h | h
      · subst h; decide
      · exact hcore3 c h
    · rw [NoRun, List.chain'_cons']
      refine ⟨fun y _ hand => absurd hand.1 (by decide), ?_⟩
      rw [List.chain'_cons']
      refine ⟨fun y hy hand => ?_, hnr3⟩
      rw [hdt] at hy
      simp only [List.head?_cons, Option.mem_def, Option.some.injEq] at hy
      exact isAsciiDigit_ne_und hdig (by rw [hy, hand.2])
    · intro y hy
      simp only [List.head?_cons, Option.mem_def, Option.some.injEq] at hy
      subst hy
      decide
    · have hrw : ('c' :: '_' :: s3).reverse = s3.reverse ++ ['_', 'c'] := by simp
      rw [hrw]
      refine headOk_append hl3 ?_
      rw [hdt]
      simp
    · show isAsciiDigit 'c' = false
      decide
  · rw [cleanDigit, if_neg hd]
    by_cases h0 : s3 = []
    · rw [cleanFallback, if_pos h0]
      refine ⟨by decide, ?_, ?_, ?_, by decide, by decide⟩
      · rw [NoRun]
        simp [List.chain'_cons, List.chain'_singleton]
      · intro y hy
        simp only [List.head?_cons, Option.mem_def, Option.some.injEq] at hy
        subst hy
        decide
      · intro y hy
        simp at hy
        subst hy
        decide
    · rw [cleanFallback, if_neg h0]
      rw [Bool.not_eq_true] at hd
      exact ⟨hcore3, hnr3, hh3, hl3, hd, h0⟩

/-- C6: for every input string, `_clean_column_name` returns (totally —
it is a Lean function) a non-empty name that does not start with a digit
and whose characters are all lowercase letters, digits or underscores. -/
theorem clean_column_name_total_wellformed (col : List Char) :
    _clean_column_name col ≠ [] ∧
      startsWithDigit (_clean_column_name col) = false ∧
      ∀ c ∈ _clean_column_name col, isCoreChar c = true :=
  ⟨(clean_invariants col).2.2.2.2.2, (clean_invariants col).2.2.2.2.1,
    (clean_invariants col).1⟩

/-- C5: the name sanitizer is idempotent. -/
theorem clean_column_name_idempotent (col : List Char) :
    _clean_column_name (_clean_column_name col) = _clean_column_name col := by
  obtain ⟨hcore, hnr, hh, hl, hd, hne⟩ := clean_invariants col
  set t := _clean_column_name col with ht
  have h1 : pyStrip isPySpace t = t :=
    pyStrip_eq_self_of_mem (fun c hc => coreChar_not_space (hcore c hc))
  have h2 : t.map pyToLower = t :=
    map_id_of_mem (fun c hc => coreChar_pyToLower (hcore c hc))
  have h3 : subNonAlnum t = t := by
    unfold subNonAlnum
    exact (subAux_fixpoint t hcore hnr).1
  have h4 : pyStrip (fun c => c == '_') t = t := pyStrip_eq_self_of_ends hh hl
  show cleanFallback (cleanDigit
    (pyStrip (fun c => c == '_') (subNonAlnum ((pyStrip isPySpace t).map pyToLower)))) = t
  rw [h1, h2, h3, h4, cleanDigit, if_neg (by rw [hd]; simp), cleanFallback, if_neg hne]

/-- C7: the headers `["Order ID", "Order ID", "2020"]` sanitize and
deduplicate to exactly `["order_id", "order_id_1", "c_2020"]`. -/
theorem clean_headers_example :
    cleanedUniqueHeaders [("Order ID").toList, ("Order ID").toList, ("2020").toList]
      = [("order_id").toList, ("order_id_1").toList, ("c_2020").toList] := by decide

/-- C1 fails on the code: for the raw headers `["a", "a", "a 1"]` the
sanitizer yields `["a", "a", "a_1"]` and `_make_unique_columns` renames
the second `"a"` to `"a_1"` without recording the suffixed name in
`seen`, so the output `["a", "a_1", "a_1"]` contains a duplicate —
contradicting both the spec and the function's own docstring
("Ensure column names are unique"). -/
theorem clean_unique_collision :
    cleanedUniqueHeaders [("a").toList, ("a").toList, ("a 1").toList]
      = [("a").toList, ("a_1").toList, ("a_1").toList] ∧
    ¬ (cleanedUniqueHeaders [("a").toList, ("a").toList, ("a 1").toList]).Nodup := by
  constructor
  · decide
  · decide

theorem lookupCount_setCount (seen : List (List Char × Nat)) (k d : List Char) (v : Nat) :
    lookupCount (setCount seen k v) d = if k = d then some v else lookupCount seen d := by
  induction seen with
  | nil =>
    by_cases h : k = d
    · simp [setCount, lookupCount, h]
    · simp [setCount, lookupCount, h]
  | cons p rest ih =>
    obtain ⟨pk, pv⟩ := p
    by_cases hpk : pk = k
    · subst hpk
      rw [setCount, if_pos rfl]
      by_cases h : pk = d
      · simp only [lookupCount, if_pos h]
      · simp only [lookupCount, if_neg h]
    · rw [setCount, if_neg hpk]
      by_cases h2 : pk = d
      · rw [if_neg (fun he : k = d => hpk (h2.trans he.symm))]
        simp only [lookupCount, if_pos h2]
      · simp only [lookupCount, if_neg h2]
        rw [ih]

theorem makeUniqueAux_id :
    ∀ (l : List (List Char)) (seen : List (List Char × Nat)),
      (∀ c ∈ l, lookupCount seen c = none) → l.Nodup → makeUniqueAux seen l = l := by
  intro l
  induction l with
  | nil => intro seen _ _; rfl
  | cons c t ih =>
    intro seen hnone hnd
    rw [makeUniqueAux, hnone c (by simp)]
    have hrest : ∀ d ∈ t, lookupCount (setCount seen c 0) d = none := by
      intro d hd
      rw [lookupCount_setCount]
      have hne : c ≠ d := fun he => (List.nodup_cons.mp hnd).1 (he ▸ hd)
      rw [if_neg hne]
      exact hnone d (by simp [hd])
    rw [ih (setCount seen c 0) hrest (List.nodup_cons.mp hnd).2]

/-- C10: on a duplicate-free list of names `_make_unique_columns` is the
identity. -/
theorem make_unique_columns_id (cols : List (List Char)) (h : cols.Nodup) :
    _make_unique_columns cols = cols := by
  unfold _make_unique_columns
  exact makeUniqueAux_id cols [] (fun c _ => rfl) h

/-- Witness for C10 at a concrete duplicate-free input. -/
theorem make_unique_columns_id_witness :
    ([("a").toList, ("b").toList]).Nodup ∧
      _make_unique_columns [("a").toList, ("b").toList]
        = [("a").toList, ("b").toList] :=
  ⟨by decide, make_unique_columns_id [("a").toList, ("b").toList] (by decide)⟩

/-! ## The index advisor -/

theorem ratioOf_eq_spec (c : Column) : ratioOf c = specCardinalityRatio c := by
  unfold ratioOf specCardinalityRatio
  by_cases hf : c.cardFail
  · rw [if_pos hf, if_pos hf]
  · rw [if_neg hf, if_neg hf]
    rcases Nat.eq_zero_or_pos (colLen c) with h0 | h0
    · have hv : c.vals = [] := by
        rw [colLen] at h0
        exact List.length_eq_zero.mp h0
      have hn : nunique c = 0 := by
        rw [nunique, hv]
        rfl
      rw [h0, hn]
      norm_num
    · have h1 : Nat.max 1 (colLen c) = colLen c := Nat.max_eq_right h0
      rw [h1]

/-- C2: for every column the loop body of `_suggest_index_columns`
computes exactly the spec's score and cardinality ratio (worst case `1`
when cardinality cannot be computed). -/
theorem score_column_matches_spec (q : ℚ) (c : Column) :
    scoreColumn q c = (specScore q c, specCardinalityRatio c) := by
  unfold scoreColumn specScore
  rw [ratioOf_eq_spec, mul_comm q 2]

/-- C3: the advisor returns the names of the stably sorted candidate
list: the sorted list is a permutation of the candidates, is ordered by
score descending then ratio ascending (`candR`), and any two candidates
tying on both score and ratio keep their original relative order. -/
theorem suggest_index_sorted_stable (q : ℚ) (k : Int) (cols : List Column)
    (a b : Nat × ℚ × List Char)
    (hsub : List.Sublist [a, b] (indexCandidates q cols))
    (hs : a.1 = b.1) (hr : a.2.1 = b.2.1) :
    _suggest_index_columns cols q k
        = (pyTake k ((indexCandidates q cols).insertionSort candR)).map (fun t => t.2.2)
      ∧ ((indexCandidates q cols).insertionSort candR).Pairwise candR
      ∧ ((indexCandidates q cols).insertionSort candR).Perm (indexCandidates q cols)
      ∧ List.Sublist [a, b] ((indexCandidates q cols).insertionSort candR) := by
  refine ⟨rfl, ?_, ?_, ?_⟩
  · exact List.sorted_insertionSort candR (indexCandidates q cols)
  · exact List.perm_insertionSort candR (indexCandidates q cols)
  · exact List.pair_sublist_insertionSort (Or.inr ⟨hs, le_of_eq hr⟩) hsub

/-- Witness for C3: the two tied `state` candidates stay in their
original order after sorting. -/
theorem suggest_index_sorted_stable_witness :
    List.Sublist [tieA, tieB] (indexCandidates 2 tieCols) ∧
      List.Sublist [tieA, tieB] ((indexCandidates 2 tieCols).insertionSort candR) := by
  have hsub : List.Sublist [tieA, tieB] (indexCandidates 2 tieCols) := by decide
  exact ⟨hsub, (suggest_index_sorted_stable 2 5 tieCols tieA tieB hsub rfl rfl).2.2.2⟩

theorem indexCandidates_pos (q : ℚ) (cols : List Column) :
    ∀ t ∈ indexCandidates q cols, 0 < t.1 := by
  intro t ht
  unfold indexCandidates at ht
  rw [List.mem_filterMap] at ht
  obtain ⟨c, _, hf⟩ := ht
  dsimp only at hf
  by_cases h : 0 < (scoreColumn q c).1
  · rw [if_pos h] at hf
    rw [← Option.some.inj hf]
    exact h
  · rw [if_neg h] at hf
    exact absurd hf (by simp)

/-- C4, amended: when `max_indexes` is non-negative the advisor returns
at most `max_indexes` names (a negative `max_indexes`, a Python `int`
slice bound, counts from the end instead — see the counterexample); and
every returned name belongs to a strictly positive-score candidate. -/
theorem suggest_index_count_and_positive (q : ℚ) (k : Int) (cols : List Column) :
    (0 ≤ k → ((_suggest_index_columns cols q k).length : Int) ≤ k)
      ∧ ∀ x ∈ _suggest_index_columns cols q k,
          ∃ t ∈ indexCandidates q cols, t.2.2 = x ∧ 0 < t.1 := by
  constructor
  · intro hk
    unfold _suggest_index_columns pyTake
    rw [if_pos hk, List.length_map, List.length_take]
    omega
  · intro x hx
    unfold _suggest_index_columns at hx
    rw [List.mem_map] at hx
    obtain ⟨t, ht, hxt⟩ := hx
    have ht2 : t ∈ (indexCandidates q cols).insertionSort candR := by
      unfold pyTake at ht
      by_cases hk : 0 ≤ k
      · rw [if_pos hk] at ht
        exact List.mem_of_mem_take ht
      · rw [if_neg hk] at ht
        exact List.mem_of_mem_take ht
    have ht3 : t ∈ indexCandidates q cols := (List.mem_insertionSort candR).mp ht2
    exact ⟨t, ht3, hxt, indexCandidates_pos q cols t ht3⟩

/-- C4 as stated is false for a negative `max_indexes`: with two
candidates and `max_indexes = -1` the slice `candidates[:-1]` keeps one
candidate, and one returned name is not "at most `-1`". -/
theorem suggest_index_count_counterexample :
    ¬ (((_suggest_index_columns tieCols 2 (-1)).length : Int) ≤ -1) := by decide

/-- Witness for C4 at `max_indexes = 5`. -/
theorem suggest_index_count_witness :
    ((0 : Int) ≤ 5) ∧ ((_suggest_index_columns tieCols 2 5).length : Int) ≤ 5 :=
  ⟨by decide, (suggest_index_count_and_positive 2 5 tieCols).1 (by decide)⟩

/-! ## The ingestion pipeline and the batch runner -/

/-- C8: when the source CSV path does not exist, `create_db_from_csv`
raises `FileNotFoundError` at once, for every behavior of the external
collaborators (so before any read), leaving the world — and with it the
destination database — untouched. -/
theorem create_db_missing_file (pd : Pandas) (w : World) (csv_path : List Char)
    (db_path table_name : Option (List Char))
    (index_columns : Option (List (List Char)))
    (encodings : Option (List (List Char))) (if_exists : List Char)
    (h : w.fsExists csv_path = false) :
    create_db_from_csv pd w csv_path db_path table_name index_columns encodings if_exists
      = (w, .error (.fileNotFound csv_path)) := by
  simp [create_db_from_csv, h]

/-- Witness for C8 in a world with no files. -/
theorem create_db_missing_file_witness :
    (wEmpty.fsExists (("data.csv").toList) = false) ∧
      create_db_from_csv pdNull wEmpty (("data.csv").toList) none none none none
          (("replace").toList)
        = (wEmpty, .error (.fileNotFound (("data.csv").toList))) :=
  ⟨rfl, create_db_missing_file pdNull wEmpty (("data.csv").toList) none none none none
    (("replace").toList) rfl⟩

theorem processEntry_missing_csv (pd : Pandas) (w : World) (e : DbConfig)
    (h : e.csv = none) : processEntry pd w e = (w, false) := by
  unfold processEntry
  rw [h]

/-- C9: a batch made of one malformed entry (no `csv` field) and one
entry that succeeds reports exactly one success and one failure — in
either order, so the malformed entry's failure does not abort the
batch. -/
theorem process_config_one_success_one_failure (pd : Pandas) (w : World)
    (e1 e2 : DbConfig) (h1 : e1.csv = none)
    (h2 : (processEntry pd w e2).2 = true) :
    (process_config_file pd w [e1, e2]).2 = (1, 1) ∧
      (process_config_file pd w [e2, e1]).2 = (1, 1) := by
  have hm : ∀ w' : World, processEntry pd w' e1 = (w', false) :=
    fun w' => processEntry_missing_csv pd w' e1 h1
  constructor
  · show (processLoop pd w [e1, e2]).2 = (1, 1)
    simp [processLoop, hm, h2]
  · show (processLoop pd w [e2, e1]).2 = (1, 1)
    simp [processLoop, hm, h2]

/-- Witness for C9: one entry without `csv`, one entry that ingests. -/
theorem process_config_one_success_one_failure_witness :
    cfgMissing.csv = none ∧ (processEntry pdOk wAll cfgGood).2 = true ∧
      (process_config_file pdOk wAll [cfgMissing, cfgGood]).2 = (1, 1) :=
  ⟨rfl, by decide,
    (process_config_one_success_one_failure pdOk wAll cfgMissing cfgGood rfl (by decide)).1⟩

end DbGen
